import Mathlib

/-!
Verification of the ob-gemini-copilot plugin core (knowledge-graph pipeline,
generation client, template substitution, link mutation, filename sanitising).

Strings are embedded as `List Char`; document files as path/basename records;
similarity scores (JavaScript numbers parsed from model JSON) as rationals,
which faithfully reflects their ordering and comparison behaviour.
External collaborators (the Gemini API, the host vault, `JSON.parse`) are
modelled as explicit parameters; everything else is translated from the
plugin source.
-/

namespace GeminiCopilot

/-- Embeds the host's `TFile`: a vault file with a stable path and a
display basename. -/
structure TFile where
  path : List Char
  basename : List Char
  deriving DecidableEq

/-- Embeds the `DocumentRelation` interface of the plugin source. -/
structure DocumentRelation where
  sourceFile : TFile
  targetFile : TFile
  similarityScore : ℚ
  extractedContext : List Char
  deriving DecidableEq

/-- Embeds the `knowledgeGraphSettings` record of `GeminiCopilotSettings`
(the fields the pipeline reads). -/
structure KnowledgeGraphSettings where
  minSimilarityScore : ℚ
  maxLinksPerDocument : ℕ
  autoAddLinks : Bool

/-- Embeds the outcome of `analyzeDocumentRelation`'s successful JSON parse:
`{ similarityScore, context }`. -/
structure AnalysisOutcome where
  similarityScore : ℚ
  context : List Char
  deriving DecidableEq

/-- One candidate target document as seen by the `findRelatedDocuments`
loop: its file, its body, and the outcomes of the two external calls made
for it (`extractCoreConcepts`, then `analyzeDocumentRelation`); `none`
covers the failure/skip paths of those calls. -/
structure TargetInfo where
  file : TFile
  content : List Char
  concepts : Option (List Char)
  analysis : Option AnalysisOutcome

/-- `!s.trim()` in the source: the body is empty or whitespace-only. -/
def isBlank (s : List Char) : Bool := s.all Char.isWhitespace

/-- Insertion step of the stable descending sort: a new element is placed
before the first element whose score is ≤ its own, i.e. after every
earlier-discovered element of strictly greater score. -/
def insertRelDesc (r : DocumentRelation) : List DocumentRelation → List DocumentRelation
  | [] => [r]
  | x :: xs =>
    if x.similarityScore ≤ r.similarityScore then r :: x :: xs
    else x :: insertRelDesc r xs

/-- Embeds `relations.sort((a, b) => b.similarityScore - a.similarityScore)`.
ECMAScript `Array.prototype.sort` is stable and, under this consistent
comparator, produces the unique stable descending order; this insertion
sort computes exactly that list. -/
def sortRelationsDesc : List DocumentRelation → List DocumentRelation
  | [] => []
  | x :: xs => insertRelDesc x (sortRelationsDesc xs)

/-- The body of the per-target loop of `findRelatedDocuments`: skip blank
targets, skip targets whose concept extraction returned null, skip targets
whose relation analysis returned null, and keep the relation only when its
score passes the configured floor. -/
def processTarget (cfg : KnowledgeGraphSettings) (sourceFile : TFile)
    (t : TargetInfo) : List DocumentRelation :=
  if isBlank t.content then []
  else
    match t.concepts with
    | none => []
    | some _ =>
      match t.analysis with
      | none => []
      | some a =>
        if cfg.minSimilarityScore ≤ a.similarityScore then
          [⟨sourceFile, t.file, a.similarityScore, a.context⟩]
        else []

/-- The relations accumulated by `findRelatedDocuments` before sorting and
truncation: the source file itself is excluded, then each remaining target
is processed in vault-enumeration order. -/
def keptRelations (cfg : KnowledgeGraphSettings) (sourceFile : TFile)
    (targets : List TargetInfo) : List DocumentRelation :=
  (targets.filter (fun t => t.file.path ≠ sourceFile.path)).flatMap
    (processTarget cfg sourceFile)

/-- Embeds `findRelatedDocuments(sourceFile, sourceContent)`: if the source
concept extraction returned null the empty list is returned at once;
otherwise the kept relations are sorted by score descending and truncated
to `maxLinksPerDocument` (`slice(0, m)` with the configured non-negative
cap is `take m`). -/
def findRelatedDocuments (cfg : KnowledgeGraphSettings) (sourceFile : TFile)
    (sourceConcepts : Option (List Char)) (targets : List TargetInfo) :
    List DocumentRelation :=
  match sourceConcepts with
  | none => []
  | some _ =>
    (sortRelationsDesc (keptRelations cfg sourceFile targets)).take
      cfg.maxLinksPerDocument

/-- Embeds the `GeminiLogEntry` interface (token counts are never set by
`generateContent`, but the fields exist). -/
structure GeminiLogEntry where
  timestamp : List Char
  model : List Char
  inputPrompt : List Char
  outputResponse : Option (List Char)
  inputTokens : Option ℕ
  outputTokens : Option ℕ
  error : Option (List Char)
  deriving DecidableEq

/-- Outcome of the external `model.generateContent` call: the completion
text, or a thrown error carrying a message. -/
inductive GenOutcome
  | success (text : List Char)
  | failure (message : List Char)

/-- Embeds `generateContent(prompt)` together with `logGeminiInteraction`.
State is the interaction log (`settings.logHistory`); the result pairs the
returned `text` with the updated log. `configured = false` is the
`!this.genAI` branch, which returns `{ text: null }` without touching the
log; otherwise exactly one entry is pushed, on success with the response
text and on failure with a null response and the error message. -/
def generateContent (configured : Bool) (timestamp model prompt : List Char)
    (outcome : GenOutcome) (log : List GeminiLogEntry) :
    Option (List Char) × List GeminiLogEntry :=
  if configured = false then (none, log)
  else
    match outcome with
    | .success t =>
      (some t, log ++ [⟨timestamp, model, prompt, some t, none, none, none⟩])
    | .failure m =>
      (none, log ++ [⟨timestamp, model, prompt, none, none, none, some m⟩])

/-- ECMAScript `GetSubstitution` applied to a replacement string:
`$$` inserts a dollar sign, `$&` the matched text, `` $` `` the text
before the match, `$'` the text after the match, and `$1`/`$01` the first
capture when one exists (the plugin's regexes have at most one group);
anything else passes through literally. -/
def jsSubst (matched before after : List Char) (cap1 : Option (List Char)) :
    List Char → List Char
  | [] => []
  | [c] => if c = '$' then ['$'] else [c]
  | c :: d :: rest2 =>
    if c = '$' then
      if d = '$' then '$' :: jsSubst matched before after cap1 rest2
      else if d = '&' then matched ++ jsSubst matched before after cap1 rest2
      else if d = Char.ofNat 96 then
        before ++ jsSubst matched before after cap1 rest2
      else if d = Char.ofNat 39 then
        after ++ jsSubst matched before after cap1 rest2
      else
        match cap1 with
        | some cap =>
          if d = '1' then cap ++ jsSubst matched before after cap1 rest2
          else if d = '0' then
            (match rest2 with
             | e :: rest3 =>
               if e = '1' then cap ++ jsSubst matched before after cap1 rest3
               else '$' :: d :: jsSubst matched before after cap1 (e :: rest3)
             | [] => ['$', d])
          else '$' :: d :: jsSubst matched before after cap1 rest2
        | none => '$' :: d :: jsSubst matched before after cap1 rest2
    else c :: jsSubst matched before after cap1 (d :: rest2)

/-- Worker for `String.prototype.replace` with a string pattern: scan for
the first position where `pat` matches, keeping the consumed prefix in
`seen` (reversed); on a match, emit prefix, substituted replacement, and
the rest of the string; if the end is reached without a match, the string
is returned unchanged. -/
def jsReplaceFirstAux (pat r : List Char) : List Char → List Char → List Char
  | seen, [] =>
    if pat.isPrefixOf ([] : List Char) then
      seen.reverse ++ jsSubst pat seen.reverse [] none r
    else seen.reverse
  | seen, c :: cs =>
    if pat.isPrefixOf (c :: cs) then
      seen.reverse ++ jsSubst pat seen.reverse ((c :: cs).drop pat.length) none r ++
        (c :: cs).drop pat.length
    else jsReplaceFirstAux pat r (c :: seen) cs

/-- Embeds `s.replace(pat, r)` with a *string* pattern `pat`, as used by
every prompt-template call site: only the first occurrence is replaced,
and the replacement goes through `GetSubstitution` (no capture groups). -/
def jsReplaceFirst (s pat r : List Char) : List Char :=
  jsReplaceFirstAux pat r [] s

/-- The `\x7b\x7bcontent\x7d\x7d` placeholder. -/
def patContent : List Char := [Char.ofNat 123, Char.ofNat 123] ++ "content".data ++ [Char.ofNat 125, Char.ofNat 125]

/-- The `\x7b\x7bcurrentTitle\x7d\x7d` placeholder. -/
def patCurrentTitle : List Char := [Char.ofNat 123, Char.ofNat 123] ++ "currentTitle".data ++ [Char.ofNat 125, Char.ofNat 125]

/-- Embeds the prompt construction of `generateNoteTitle`: replace
`\x7b\x7bcontent\x7d\x7d` with the note content, then `\x7b\x7bcurrentTitle\x7d\x7d` with
`` ` using current title: ${currentTitle}` `` when the title is truthy
(defined and non-empty) and with the empty string otherwise. -/
def generateNoteTitlePrompt (template content : List Char)
    (currentTitle : Option (List Char)) : List Char :=
  let p1 := jsReplaceFirst template patContent content
  jsReplaceFirst p1 patCurrentTitle
    (match currentTitle with
     | none => []
     | some t => if t = [] then [] else " using current title: ".data ++ t)

/-- Embeds the `/\x7b[\s\S]*\x7d/` match of `extractCoreConcepts` and
`analyzeDocumentRelation`: the span from the first opening brace to the
last closing brace, when the latter lies strictly after the former;
otherwise the regex does not match. -/
def jsonSpan (s : List Char) : Option (List Char) :=
  match s.findIdx? (fun c => c = Char.ofNat 123) with
  | none => none
  | some i =>
    match s.reverse.findIdx? (fun c => c = Char.ofNat 125) with
    | none => none
    | some k =>
      let j := s.length - 1 - k
      if i < j then some ((s.drop i).take (j - i + 1)) else none

/-- Embeds `extractCoreConcepts(content)` downstream of the generation
call. `response` is the generation result (`none` when the call failed).
The guard `if (!response.text) return null` tests JavaScript falsiness, so
it fires both when the call failed (`text` is null) and when a successful
response is the empty string. `conceptsOf` abstracts the external
`JSON.parse` plus the `conceptsData.concepts.join(', ')` property access:
`some cs` when the span parses to an object whose `concepts` field is a
joinable list, and `none` for every thrown-and-caught path (invalid JSON,
missing or non-array `concepts`). -/
def extractCoreConcepts (conceptsOf : List Char → Option (List (List Char)))
    (response : Option (List Char)) : Option (List Char) :=
  match response with
  | none => none
  | some text =>
    if text = [] then none
    else
      match jsonSpan text with
      | none => some text
      | some span =>
        match conceptsOf span with
        | none => some text
        | some cs => some (List.intercalate ", ".data cs)

/-- The `## 관련 문서` section marker. -/
def marker : List Char := "## 관련 문서".data

/-- The marker followed by a newline, as required by `sectionRegex`. -/
def markerNl : List Char := marker ++ "\n".data

/-- One line of the related-links section:
`` `- [[${rel.targetFile.basename}]] - ${rel.extractedContext}\n` ``. -/
def relationLine (r : DocumentRelation) : List Char :=
  "- [[".data ++ r.targetFile.basename ++ "]] - ".data ++
    r.extractedContext ++ "\n".data

/-- The section text built by `addWikiLinksToDocuments`:
`'\n\n## 관련 문서\n'` followed by one line per kept relation. -/
def relatedLinksSection (rels : List DocumentRelation) : List Char :=
  "\n\n".data ++ markerNl ++ (rels.map relationLine).flatten

/-- Embeds the loop body of `addWikiLinksToDocuments` for one source
document: group the relations of that source, sort them by score
descending, truncate to `maxLinksPerDocument`; if nothing remains, or the
body already contains the marker, leave the body unchanged; otherwise
append the freshly built section. -/
def addLinksToContent (cfg : KnowledgeGraphSettings) (sourcePath : List Char)
    (relations : List DocumentRelation) (content : List Char) : List Char :=
  let relatedFiles :=
    (sortRelationsDesc (relations.filter
      (fun r => r.sourceFile.path == sourcePath))).take cfg.maxLinksPerDocument
  if relatedFiles.isEmpty then content
  else if marker <:+: content then content
  else content ++ relatedLinksSection relatedFiles

/-- First index at which `pat` matches inside a list, scanning left to
right (the position a regex engine reports for a literal-text match). -/
def findMatchIdx (pat : List Char) : List Char → Option ℕ
  | [] => if pat.isPrefixOf ([] : List Char) then some 0 else none
  | c :: cs =>
    if pat.isPrefixOf (c :: cs) then some 0
    else (findMatchIdx pat cs).map (· + 1)

/-- The length matched by the lazy group `([\s\S]*?)` of `sectionRegex`
before the lookahead `(?=\n##|$)`: the shortest span ending where `\n##`
starts or the text ends. -/
def lazySectionLen : List Char → ℕ
  | [] => 0
  | c :: cs =>
    if ("\n##".data).isPrefixOf (c :: cs) then 0 else 1 + lazySectionLen cs

/-- The match of `sectionRegex = /## 관련 문서\n([\s\S]*?)(?=\n##|$)/` on a
body: the start index of `## 관련 문서\n` and the captured group (the
section's line list). `none` when the marker-plus-newline never occurs. -/
def sectionMatch (content : List Char) : Option (ℕ × List Char) :=
  (findMatchIdx markerNl content).map (fun i =>
    let rest := content.drop (i + markerNl.length)
    (i, rest.take (lazySectionLen rest)))

/-- Embeds `RelatedDocumentsModal.addWikiLink` restricted to its textual
effect on the active document's body, for a chosen relation with target
`basename` and context `context`. When the body contains the marker and
`sectionRegex` matches, either the wikilink is already in the captured
section (no-op) or the matched section is replaced — through
`String.replace`'s `GetSubstitution`, the regex having one capture group —
by itself plus one new line; when the marker occurs but the regex does not
match (marker never followed by a newline), nothing happens; when the
marker is absent, a fresh section with the single entry is appended. -/
def addWikiLink (basename context content : List Char) : List Char :=
  let wikiLink := "[[".data ++ basename ++ "]]".data
  let linkWithContext := "- ".data ++ wikiLink ++ " - ".data ++ context
  if marker <:+: content then
    match sectionMatch content with
    | none => content
    | some (i, m1) =>
      if wikiLink <:+: m1 then content
      else
        let match0 := markerNl ++ m1
        let updatedSection := match0 ++ "\n".data ++ linkWithContext
        content.take i ++
          jsSubst match0 (content.take i) (content.drop (i + match0.length))
            (some m1) updatedSection ++
          content.drop (i + match0.length)
  else content ++ "\n\n".data ++ markerNl ++ linkWithContext

/-- A concrete JSON-parse oracle realising the behaviour of `JSON.parse`
on the spec's example response, used to instantiate
`extractCoreConcepts`. -/
def exampleConceptsOf (s : List Char) : Option (List (List Char)) :=
  if s = "\x7b\"concepts\": [\"a\",\"b\"]\x7d".data then some ["a".data, "b".data]
  else none

/-- The character class of `sanitizeFilename`'s regex
`/[*"\\\/<>:\|?]/g`. -/
def invalidFilenameChar (c : Char) : Bool :=
  c = '*' || c = '"' || c = '\\' || c = '/' || c = '<' || c = '>' ||
    c = ':' || c = '|' || c = '?'

/-- Embeds `sanitizeFilename(filename)`: the global regex replace scans the
string once and rewrites each character of the class to an underscore. -/
def sanitizeFilename : List Char → List Char
  | [] => []
  | c :: cs => (if invalidFilenameChar c then '_' else c) :: sanitizeFilename cs

/-! ### Lemmas about the stable descending sort -/

theorem mem_insertRelDesc {r x : DocumentRelation} {l : List DocumentRelation} :
    r ∈ insertRelDesc x l ↔ r = x ∨ r ∈ l := by
  induction l with
  | nil => simp [insertRelDesc]
  | cons y ys ih =>
    simp only [insertRelDesc]
    split
    · simp [List.mem_cons]
    · simp [List.mem_cons, ih]
      tauto

theorem mem_sortRelationsDesc {r : DocumentRelation} {l : List DocumentRelation} :
    r ∈ sortRelationsDesc l ↔ r ∈ l := by
  induction l with
  | nil => simp [sortRelationsDesc]
  | cons x xs ih => simp [sortRelationsDesc, mem_insertRelDesc, ih]

theorem pairwise_insertRelDesc {x : DocumentRelation} {l : List DocumentRelation}
    (h : l.Pairwise (fun a b => b.similarityScore ≤ a.similarityScore)) :
    (insertRelDesc x l).Pairwise
      (fun a b => b.similarityScore ≤ a.similarityScore) := by
  induction l with
  | nil => simp [insertRelDesc]
  | cons y ys ih =>
    rcases List.pairwise_cons.1 h with ⟨hy, hys⟩
    simp only [insertRelDesc]
    split
    · rename_i hle
      refine List.pairwise_cons.2 ⟨?_, h⟩
      intro z hz
      rcases List.mem_cons.1 hz with rfl | hz
      · exact hle
      · exact le_trans (hy z hz) hle
    · rename_i hlt
      refine List.pairwise_cons.2 ⟨?_, ih hys⟩
      intro z hz
      rcases mem_insertRelDesc.1 hz with rfl | hz
      · exact le_of_lt (lt_of_not_le hlt)
      · exact hy z hz

theorem pairwise_sortRelationsDesc (l : List DocumentRelation) :
    (sortRelationsDesc l).Pairwise
      (fun a b => b.similarityScore ≤ a.similarityScore) := by
  induction l with
  | nil => simp [sortRelationsDesc]
  | cons x xs ih => exact pairwise_insertRelDesc ih

theorem filter_insertRelDesc_of_eq {x : DocumentRelation} {q : ℚ}
    (hx : x.similarityScore = q) (l : List DocumentRelation) :
    (insertRelDesc x l).filter (fun r => decide (r.similarityScore = q)) =
      x :: l.filter (fun r => decide (r.similarityScore = q)) := by
  induction l with
  | nil => simp [insertRelDesc, List.filter, hx]
  | cons y ys ih =>
    simp only [insertRelDesc]
    split
    · simp [List.filter, hx]
    · rename_i hlt
      have hy : ¬ (y.similarityScore = q) := by
        intro hq
        exact hlt (by rw [hq, ← hx])
      simp [List.filter, hy, ih]

theorem filter_insertRelDesc_of_ne {x : DocumentRelation} {q : ℚ}
    (hx : ¬ x.similarityScore = q) (l : List DocumentRelation) :
    (insertRelDesc x l).filter (fun r => decide (r.similarityScore = q)) =
      l.filter (fun r => decide (r.similarityScore = q)) := by
  induction l with
  | nil => simp [insertRelDesc, List.filter, hx]
  | cons y ys ih =>
    simp only [insertRelDesc]
    split
    · simp [List.filter, hx]
    · simp only [List.filter, ih]

theorem filter_sortRelationsDesc (q : ℚ) (l : List DocumentRelation) :
    (sortRelationsDesc l).filter (fun r => decide (r.similarityScore = q)) =
      l.filter (fun r => decide (r.similarityScore = q)) := by
  induction l with
  | nil => simp [sortRelationsDesc]
  | cons x xs ih =>
    simp only [sortRelationsDesc]
    by_cases hx : x.similarityScore = q
    · rw [filter_insertRelDesc_of_eq hx, ih]
      simp [List.filter, hx]
    · rw [filter_insertRelDesc_of_ne hx, ih]
      simp [List.filter, hx]

theorem insertRelDesc_of_le {r : DocumentRelation} {l : List DocumentRelation}
    (h : ∀ y ∈ l, y.similarityScore ≤ r.similarityScore) :
    insertRelDesc r l = r :: l := by
  cases l with
  | nil => rfl
  | cons y ys =>
    simp only [insertRelDesc]
    rw [if_pos (h y (List.mem_cons_self y ys))]

theorem sortRelationsDesc_of_pairwise {l : List DocumentRelation}
    (h : l.Pairwise (fun a b => b.similarityScore ≤ a.similarityScore)) :
    sortRelationsDesc l = l := by
  induction l with
  | nil => rfl
  | cons x xs ih =>
    rcases List.pairwise_cons.1 h with ⟨hx, hxs⟩
    simp only [sortRelationsDesc, ih hxs]
    exact insertRelDesc_of_le hx

/-! ### Lemmas about `findRelatedDocuments` -/

theorem mem_processTarget {cfg : KnowledgeGraphSettings} {src : TFile}
    {t : TargetInfo} {r : DocumentRelation} (h : r ∈ processTarget cfg src t) :
    ∃ a, t.analysis = some a ∧
      cfg.minSimilarityScore ≤ a.similarityScore ∧
      r = ⟨src, t.file, a.similarityScore, a.context⟩ := by
  unfold processTarget at h
  split at h
  · simp at h
  · split at h
    · simp at h
    · split at h
      · simp at h
      · rename_i a heq
        split at h
        · rename_i hge
          simp only [List.mem_singleton] at h
          exact ⟨a, heq, hge, h⟩
        · simp at h

theorem mem_findRelatedDocuments {cfg : KnowledgeGraphSettings} {src : TFile}
    {sc : Option (List Char)} {targets : List TargetInfo} {r : DocumentRelation}
    (h : r ∈ findRelatedDocuments cfg src sc targets) :
    ∃ t ∈ targets, ¬ t.file.path = src.path ∧ ∃ a, t.analysis = some a ∧
      cfg.minSimilarityScore ≤ a.similarityScore ∧
      r = ⟨src, t.file, a.similarityScore, a.context⟩ := by
  unfold findRelatedDocuments at h
  cases sc with
  | none => simp at h
  | some s =>
    have h1 : r ∈ sortRelationsDesc (keptRelations cfg src targets) :=
      List.mem_of_mem_take h
    rw [mem_sortRelationsDesc] at h1
    unfold keptRelations at h1
    rcases List.mem_flatMap.1 h1 with ⟨t, ht, hr⟩
    rcases List.mem_filter.1 ht with ⟨htmem, hne⟩
    rcases mem_processTarget hr with ⟨a, ha, hge, hreq⟩
    exact ⟨t, htmem, by simpa using hne, a, ha, hge, hreq⟩

/-! ### Claim C1 -/

/-- C1: for every vault state, model response and configured threshold,
every relation returned by `findRelatedDocuments` has a similarity score
greater than or equal to `minSimilarityScore` — no relation below the
configured floor is ever returned. -/
theorem findRelated_score_ge_floor (cfg : KnowledgeGraphSettings)
    (src : TFile) (sc : Option (List Char)) (targets : List TargetInfo)
    (r : DocumentRelation) (h : r ∈ findRelatedDocuments cfg src sc targets) :
    cfg.minSimilarityScore ≤ r.similarityScore := by
  rcases mem_findRelatedDocuments h with ⟨t, _, _, a, _, hge, rfl⟩
  exact hge

/-- Witness for C1: a concrete run with floor 1 returning one relation of
score 2. -/
theorem findRelated_score_ge_floor_witness :
    (⟨1, 5, false⟩ : KnowledgeGraphSettings).minSimilarityScore ≤
      (⟨⟨"a.md".data, "a".data⟩, ⟨"b.md".data, "b".data⟩, 2, "ctx".data⟩ :
        DocumentRelation).similarityScore :=
  findRelated_score_ge_floor ⟨1, 5, false⟩ ⟨"a.md".data, "a".data⟩
    (some "c".data)
    [⟨⟨"b.md".data, "b".data⟩, "bb".data, some "c".data,
      some ⟨2, "ctx".data⟩⟩]
    ⟨⟨"a.md".data, "a".data⟩, ⟨"b.md".data, "b".data⟩, 2, "ctx".data⟩
    (by decide)

/-! ### Claim C2 -/

/-- C2: `findRelatedDocuments` returns at most `maxLinksPerDocument`
relations, sorted by similarity score in descending order; ties keep their
order of discovery (the stable sort leaves the relative order of
equal-score relations in the kept list unchanged, stated via `filter`). -/
theorem findRelated_cap_sorted_stable (cfg : KnowledgeGraphSettings)
    (src : TFile) (sc : Option (List Char)) (targets : List TargetInfo) :
    (findRelatedDocuments cfg src sc targets).length ≤
        cfg.maxLinksPerDocument ∧
    (findRelatedDocuments cfg src sc targets).Pairwise
        (fun a b => b.similarityScore ≤ a.similarityScore) ∧
    ∀ q : ℚ,
      (sortRelationsDesc (keptRelations cfg src targets)).filter
          (fun r => decide (r.similarityScore = q)) =
        (keptRelations cfg src targets).filter
          (fun r => decide (r.similarityScore = q)) := by
  refine ⟨?_, ?_, fun q => filter_sortRelationsDesc q _⟩
  · unfold findRelatedDocuments
    cases sc with
    | none => simp
    | some s => simp
  · unfold findRelatedDocuments
    cases sc with
    | none => simp
    | some s =>
      exact List.Pairwise.sublist (List.take_sublist _ _) (pairwise_sortRelationsDesc _)

/-! ### Claim C3 -/

/-- Counterexample for C3: `findRelatedDocuments` only checks the
configured floor, never an upper bound, so a model response with
`similarityScore = 2` produces a returned relation whose score exceeds
1.0 — the claimed invariant `similarityScore ≤ 1.0` fails. -/
theorem findRelated_score_above_one :
    ((findRelatedDocuments ⟨0, 5, false⟩ ⟨"a.md".data, "a".data⟩
        (some "c".data)
        [⟨⟨"b.md".data, "b".data⟩, "bb".data, some "c".data,
          some ⟨2, "ctx".data⟩⟩]).map DocumentRelation.similarityScore =
      [2]) ∧ ¬ ((2 : ℚ) ≤ 1) := by
  refine ⟨by decide, by norm_num⟩

/-- C3 (amended): every relation returned by `findRelatedDocuments`
satisfies, unconditionally, `minSimilarityScore ≤ similarityScore` and
`sourceFile ≠ targetFile`; and its score lies within [0, 1] whenever every
model-returned analysis score lies within [0, 1] (the code itself never
clamps or validates the upper bound). -/
theorem findRelated_relations_in_range (cfg : KnowledgeGraphSettings)
    (src : TFile) (sc : Option (List Char)) (targets : List TargetInfo) :
    (∀ r ∈ findRelatedDocuments cfg src sc targets,
      cfg.minSimilarityScore ≤ r.similarityScore ∧
        r.sourceFile ≠ r.targetFile) ∧
    ((∀ t ∈ targets, ∀ a, t.analysis = some a →
        0 ≤ a.similarityScore ∧ a.similarityScore ≤ 1) →
      ∀ r ∈ findRelatedDocuments cfg src sc targets,
        0 ≤ r.similarityScore ∧ r.similarityScore ≤ 1) := by
  constructor
  · intro r hr
    rcases mem_findRelatedDocuments hr with ⟨t, ht, hne, a, ha, hge, rfl⟩
    refine ⟨hge, ?_⟩
    intro heq
    exact hne (by rw [show src = t.file from heq])
  · intro hbound r hr
    rcases mem_findRelatedDocuments hr with ⟨t, ht, hne, a, ha, hge, rfl⟩
    exact hbound t ht a ha

/-- Witness for the amended C3: a concrete run returning one relation —
floor and distinctness hold outright, and the in-range conclusion holds
under the concrete in-range model scores. -/
theorem findRelated_relations_in_range_witness :
    ((⟨0, 5, false⟩ : KnowledgeGraphSettings).minSimilarityScore ≤
        (⟨⟨"a.md".data, "a".data⟩, ⟨"b.md".data, "b".data⟩, 1,
          "ctx".data⟩ : DocumentRelation).similarityScore ∧
      (⟨⟨"a.md".data, "a".data⟩, ⟨"b.md".data, "b".data⟩, 1,
          "ctx".data⟩ : DocumentRelation).sourceFile ≠
        (⟨⟨"a.md".data, "a".data⟩, ⟨"b.md".data, "b".data⟩, 1,
          "ctx".data⟩ : DocumentRelation).targetFile) ∧
    (0 ≤ (⟨⟨"a.md".data, "a".data⟩, ⟨"b.md".data, "b".data⟩, 1,
        "ctx".data⟩ : DocumentRelation).similarityScore ∧
      (⟨⟨"a.md".data, "a".data⟩, ⟨"b.md".data, "b".data⟩, 1,
        "ctx".data⟩ : DocumentRelation).similarityScore ≤ 1) :=
  ⟨(findRelated_relations_in_range ⟨0, 5, false⟩ ⟨"a.md".data, "a".data⟩
      (some "c".data)
      [⟨⟨"b.md".data, "b".data⟩, "bb".data, some "c".data,
        some ⟨1, "ctx".data⟩⟩]).1
      ⟨⟨"a.md".data, "a".data⟩, ⟨"b.md".data, "b".data⟩, 1, "ctx".data⟩
      (by decide),
    (findRelated_relations_in_range ⟨0, 5, false⟩ ⟨"a.md".data, "a".data⟩
      (some "c".data)
      [⟨⟨"b.md".data, "b".data⟩, "bb".data, some "c".data,
        some ⟨1, "ctx".data⟩⟩]).2
      (by decide)
      ⟨⟨"a.md".data, "a".data⟩, ⟨"b.md".data, "b".data⟩, 1, "ctx".data⟩
      (by decide)⟩

/-! ### Claim C4 -/

/-- Counterexample for C4: in the not-configured case (`!this.genAI`)
`generateContent` returns a null-text result *without* appending anything
to the interaction log — zero entries, not the claimed exactly one. -/
theorem generateContent_not_configured_logs_nothing :
    generateContent false "t".data "m".data "p".data
        (GenOutcome.failure "boom".data) [] = (none, []) ∧
    (generateContent false "t".data "m".data "p".data
        (GenOutcome.failure "boom".data) []).2.length = 0 ∧
    (0 : ℕ) ≠ 1 := by
  refine ⟨rfl, rfl, by decide⟩

/-- C4 (amended): every invocation of `generateContent` with a configured
client appends exactly one log entry; on failure that entry has a null
`outputResponse` and carries the thrown error's message, and the caller
receives a null-text result rather than an escaping exception; in the
not-configured case the log is left untouched and the caller receives a
null-text result. -/
theorem generateContent_log_discipline (ts md prompt msg txt : List Char)
    (log : List GeminiLogEntry) :
    generateContent true ts md prompt (GenOutcome.failure msg) log =
      (none, log ++ [⟨ts, md, prompt, none, none, none, some msg⟩]) ∧
    generateContent true ts md prompt (GenOutcome.success txt) log =
      (some txt, log ++ [⟨ts, md, prompt, some txt, none, none, none⟩]) ∧
    (generateContent true ts md prompt (GenOutcome.failure msg) log).2.length =
      log.length + 1 ∧
    (generateContent true ts md prompt (GenOutcome.success txt) log).2.length =
      log.length + 1 ∧
    generateContent false ts md prompt (GenOutcome.failure msg) log =
      (none, log) := by
  refine ⟨rfl, rfl, ?_, ?_, rfl⟩ <;> simp [generateContent]

/-! ### Claim C5 -/

/-- Counterexample for C5: `addWikiLinksToDocuments` re-sorts the group of
relations for the document by score descending before writing, so an input
sequence given in ascending score order produces section lines in the
*opposite* of input order ("one line per input relation, in the same order
as the input relation sequence" fails). -/
theorem addLinks_reorders_input :
    addLinksToContent ⟨0, 5, false⟩ "a.md".data
        [⟨⟨"a.md".data, "A".data⟩, ⟨"b.md".data, "B".data⟩, 0, "c1".data⟩,
         ⟨⟨"a.md".data, "A".data⟩, ⟨"c.md".data, "C".data⟩, 1, "c2".data⟩]
        "body".data =
      "body".data ++ relatedLinksSection
        [⟨⟨"a.md".data, "A".data⟩, ⟨"c.md".data, "C".data⟩, 1, "c2".data⟩,
         ⟨⟨"a.md".data, "A".data⟩, ⟨"b.md".data, "B".data⟩, 0, "c1".data⟩] ∧
    addLinksToContent ⟨0, 5, false⟩ "a.md".data
        [⟨⟨"a.md".data, "A".data⟩, ⟨"b.md".data, "B".data⟩, 0, "c1".data⟩,
         ⟨⟨"a.md".data, "A".data⟩, ⟨"c.md".data, "C".data⟩, 1, "c2".data⟩]
        "body".data ≠
      "body".data ++ relatedLinksSection
        [⟨⟨"a.md".data, "A".data⟩, ⟨"b.md".data, "B".data⟩, 0, "c1".data⟩,
         ⟨⟨"a.md".data, "A".data⟩, ⟨"c.md".data, "C".data⟩, 1, "c2".data⟩] := by
  refine ⟨by decide, by decide⟩

/-- Shared shape lemma: on a body without the marker, with a non-empty
group after filtering/sorting/truncation, the loop body appends the built
section. -/
theorem addLinksToContent_of_no_marker {cfg : KnowledgeGraphSettings}
    {p body : List Char} {rels : List DocumentRelation}
    (hm : ¬ marker <:+: body)
    (hne : (sortRelationsDesc (rels.filter
        (fun r => r.sourceFile.path == p))).take cfg.maxLinksPerDocument ≠ []) :
    addLinksToContent cfg p rels body =
      body ++ relatedLinksSection
        ((sortRelationsDesc (rels.filter
          (fun r => r.sourceFile.path == p))).take cfg.maxLinksPerDocument) := by
  unfold addLinksToContent
  rw [if_neg (by simpa [List.isEmpty_iff] using hne), if_neg hm]

/-- Shape lemma: when the group is empty after filtering/sorting/
truncation, the loop body leaves the document unchanged. -/
theorem addLinksToContent_of_isEmpty {cfg : KnowledgeGraphSettings}
    {p body : List Char} {rels : List DocumentRelation}
    (he : ((sortRelationsDesc (rels.filter
        (fun r => r.sourceFile.path == p))).take
          cfg.maxLinksPerDocument).isEmpty = true) :
    addLinksToContent cfg p rels body = body := by
  simp only [addLinksToContent]
  rw [if_pos he]

/-- Shape lemma: a body already holding the marker is left unchanged. -/
theorem addLinksToContent_of_marker {cfg : KnowledgeGraphSettings}
    {p body : List Char} {rels : List DocumentRelation}
    (hm : marker <:+: body) :
    addLinksToContent cfg p rels body = body := by
  simp only [addLinksToContent]
  split_ifs <;> rfl

/-- C5 (amended): for a body without the `## 관련 문서` marker, one
application of the batch link-append writes the old body followed by a new
section holding one line per relation of the group after stable descending
sort and truncation to `maxLinksPerDocument`; in particular, when the
document's relation group is already sorted descending and within the cap,
the section holds exactly one line per input relation in input order. -/
theorem addLinks_appends_section :
    (∀ (cfg : KnowledgeGraphSettings) (p : List Char)
        (rels : List DocumentRelation) (body : List Char),
      ¬ marker <:+: body →
      (sortRelationsDesc (rels.filter
          (fun r => r.sourceFile.path == p))).take cfg.maxLinksPerDocument ≠ [] →
      addLinksToContent cfg p rels body =
        body ++ relatedLinksSection
          ((sortRelationsDesc (rels.filter
            (fun r => r.sourceFile.path == p))).take cfg.maxLinksPerDocument)) ∧
    (∀ (cfg : KnowledgeGraphSettings) (p : List Char)
        (rels : List DocumentRelation) (body : List Char),
      ¬ marker <:+: body →
      (rels.filter (fun r => r.sourceFile.path == p)).Pairwise
        (fun a b => b.similarityScore ≤ a.similarityScore) →
      (rels.filter (fun r => r.sourceFile.path == p)).length ≤
        cfg.maxLinksPerDocument →
      rels.filter (fun r => r.sourceFile.path == p) ≠ [] →
      addLinksToContent cfg p rels body =
        body ++ relatedLinksSection
          (rels.filter (fun r => r.sourceFile.path == p))) := by
  refine ⟨fun cfg p rels body hm hne => addLinksToContent_of_no_marker hm hne,
    fun cfg p rels body hm hsort hlen hne => ?_⟩
  have hs : sortRelationsDesc (rels.filter (fun r => r.sourceFile.path == p)) =
      rels.filter (fun r => r.sourceFile.path == p) :=
    sortRelationsDesc_of_pairwise hsort
  have ht : (sortRelationsDesc (rels.filter
      (fun r => r.sourceFile.path == p))).take cfg.maxLinksPerDocument =
      rels.filter (fun r => r.sourceFile.path == p) := by
    rw [hs, List.take_of_length_le hlen]
  rw [addLinksToContent_of_no_marker hm (by rw [ht]; exact hne), ht]

/-- Witness for the amended C5: a concrete unsorted pair of relations is
appended in sorted order, and a concrete sorted pair in input order. -/
theorem addLinks_appends_section_witness :
    addLinksToContent ⟨0, 5, false⟩ "a.md".data
        [⟨⟨"a.md".data, "A".data⟩, ⟨"c.md".data, "C".data⟩, 1, "c2".data⟩,
         ⟨⟨"a.md".data, "A".data⟩, ⟨"b.md".data, "B".data⟩, 0, "c1".data⟩]
        "body".data =
      "body".data ++ relatedLinksSection
        ((sortRelationsDesc
          ([⟨⟨"a.md".data, "A".data⟩, ⟨"c.md".data, "C".data⟩, 1, "c2".data⟩,
            ⟨⟨"a.md".data, "A".data⟩, ⟨"b.md".data, "B".data⟩, 0,
              "c1".data⟩].filter
            (fun r => r.sourceFile.path == "a.md".data))).take 5) ∧
    addLinksToContent ⟨0, 5, false⟩ "a.md".data
        [⟨⟨"a.md".data, "A".data⟩, ⟨"c.md".data, "C".data⟩, 1, "c2".data⟩,
         ⟨⟨"a.md".data, "A".data⟩, ⟨"b.md".data, "B".data⟩, 0, "c1".data⟩]
        "body".data =
      "body".data ++ relatedLinksSection
        ([⟨⟨"a.md".data, "A".data⟩, ⟨"c.md".data, "C".data⟩, 1, "c2".data⟩,
          ⟨⟨"a.md".data, "A".data⟩, ⟨"b.md".data, "B".data⟩, 0,
            "c1".data⟩].filter
          (fun r => r.sourceFile.path == "a.md".data)) :=
  ⟨addLinks_appends_section.1 ⟨0, 5, false⟩ "a.md".data
      [⟨⟨"a.md".data, "A".data⟩, ⟨"c.md".data, "C".data⟩, 1, "c2".data⟩,
       ⟨⟨"a.md".data, "A".data⟩, ⟨"b.md".data, "B".data⟩, 0, "c1".data⟩]
      "body".data (by decide) (by decide),
    addLinks_appends_section.2 ⟨0, 5, false⟩ "a.md".data
      [⟨⟨"a.md".data, "A".data⟩, ⟨"c.md".data, "C".data⟩, 1, "c2".data⟩,
       ⟨⟨"a.md".data, "A".data⟩, ⟨"b.md".data, "B".data⟩, 0, "c1".data⟩]
      "body".data (by decide) (by decide) (by decide) (by decide)⟩

/-! ### Claim C6 -/

/-- C6: the batch link-append is idempotent per document — a second run on
the result of a first run changes nothing, and a body that already
contains the `## 관련 문서` marker is left unchanged. -/
theorem addLinks_idempotent (cfg : KnowledgeGraphSettings) (p : List Char)
    (rels : List DocumentRelation) (body : List Char) :
    addLinksToContent cfg p rels (addLinksToContent cfg p rels body) =
      addLinksToContent cfg p rels body ∧
    (marker <:+: body → addLinksToContent cfg p rels body = body) := by
  refine ⟨?_, addLinksToContent_of_marker⟩
  by_cases he : ((sortRelationsDesc (rels.filter
      (fun r => r.sourceFile.path == p))).take
        cfg.maxLinksPerDocument).isEmpty = true
  · simp only [addLinksToContent_of_isEmpty he]
  · by_cases hm : marker <:+: body
    · simp only [addLinksToContent_of_marker hm]
    · have hne : (sortRelationsDesc (rels.filter
          (fun r => r.sourceFile.path == p))).take cfg.maxLinksPerDocument ≠
            [] := by
        intro h
        exact he (by rw [h]; rfl)
      rw [addLinksToContent_of_no_marker hm hne]
      exact addLinksToContent_of_marker
        ⟨body ++ "\n\n".data,
          "\n".data ++ (((sortRelationsDesc (rels.filter
            (fun r => r.sourceFile.path == p))).take
              cfg.maxLinksPerDocument).map relationLine).flatten,
          by simp [relatedLinksSection, markerNl, marker]⟩

/-- Witness for C6 at a concrete document whose body already holds the
marker section. -/
theorem addLinks_idempotent_witness :
    addLinksToContent ⟨0, 5, false⟩ "a.md".data []
        (addLinksToContent ⟨0, 5, false⟩ "a.md".data [] "x".data) =
      addLinksToContent ⟨0, 5, false⟩ "a.md".data [] "x".data ∧
    addLinksToContent ⟨0, 5, false⟩ "a.md".data []
        "x\n\n## 관련 문서\n- [[B]] - c\n".data =
      "x\n\n## 관련 문서\n- [[B]] - c\n".data :=
  ⟨(addLinks_idempotent ⟨0, 5, false⟩ "a.md".data [] "x".data).1,
    (addLinks_idempotent ⟨0, 5, false⟩ "a.md".data []
      "x\n\n## 관련 문서\n- [[B]] - c\n".data).2 (by decide)⟩

/-! ### Lemmas about `jsReplaceFirst` -/

theorem jsSubst_of_no_dollar {matched before after : List Char}
    {cap1 : Option (List Char)} : ∀ {r : List Char}, '$' ∉ r →
    jsSubst matched before after cap1 r = r := by
  intro r
  induction r with
  | nil => intro h; rfl
  | cons c cs ih =>
    intro h
    have hc : ¬ c = '$' := by
      intro hh
      exact h (by simp [hh])
    have hcs : '$' ∉ cs := fun hh => h (List.mem_cons_of_mem c hh)
    cases cs with
    | nil =>
      rw [jsSubst.eq_def]
      simp [hc]
    | cons d rest2 =>
      rw [jsSubst.eq_def]
      simp only []
      rw [if_neg hc, ih hcs]

theorem jsReplaceFirstAux_no_occurrence {pat r : List Char} (hpat : pat ≠ []) :
    ∀ (s seen : List Char), ¬ pat <:+: s →
      jsReplaceFirstAux pat r seen s = seen.reverse ++ s := by
  intro s
  induction s with
  | nil =>
    intro seen h
    cases pat with
    | nil => exact absurd rfl hpat
    | cons a as => simp [jsReplaceFirstAux]
  | cons c cs ih =>
    intro seen h
    have hp : ¬ pat <+: (c :: cs) := fun hpre => h hpre.isInfix
    have hb : pat.isPrefixOf (c :: cs) = false := by
      simp only [Bool.eq_false_iff, ne_eq, List.isPrefixOf_iff_prefix]
      exact hp
    have h2 : ¬ pat <:+: cs := fun hinf => h (List.infix_cons hinf)
    simp only [jsReplaceFirstAux, hb, Bool.false_eq_true, if_false]
    rw [ih (c :: seen) h2]
    simp

theorem jsReplaceFirst_no_occurrence {s pat r : List Char}
    (h : ¬ pat <:+: s) : jsReplaceFirst s pat r = s := by
  cases hpat : pat with
  | nil => exact absurd (List.nil_infix) (hpat ▸ h)
  | cons a as =>
    unfold jsReplaceFirst
    rw [jsReplaceFirstAux_no_occurrence (by simp [hpat]) s [] (hpat ▸ h)]
    rfl

theorem jsReplaceFirstAux_first_occurrence {pat r : List Char}
    (hpat : pat ≠ []) :
    ∀ (p seen t : List Char),
      (∀ i, i < p.length → ¬ pat <+: (p.drop i ++ pat ++ t)) →
      jsReplaceFirstAux pat r seen (p ++ pat ++ t) =
        seen.reverse ++ p ++ jsSubst pat (seen.reverse ++ p) t none r ++ t := by
  intro p
  induction p with
  | nil =>
    intro seen t _
    cases pat with
    | nil => exact absurd rfl hpat
    | cons a as =>
      have hb : (a :: as).isPrefixOf ((a :: as) ++ t) = true := by
        simp only [List.isPrefixOf_iff_prefix]
        exact List.prefix_append _ _
      simp only [List.nil_append, List.cons_append] at hb ⊢
      simp only [jsReplaceFirstAux, hb, if_true]
      rw [show (a :: (as ++ t)).drop (a :: as).length = t from
        List.drop_left (a :: as) t]
      simp
  | cons c p' ih =>
    intro seen t hocc
    have h0 : ¬ pat <+: ((c :: p') ++ pat ++ t) := by
      have := hocc 0 (by simp)
      simpa using this
    have hb : pat.isPrefixOf ((c :: p') ++ pat ++ t) = false := by
      simp only [Bool.eq_false_iff, ne_eq, List.isPrefixOf_iff_prefix]
      exact h0
    simp only [List.cons_append] at hb ⊢
    simp only [jsReplaceFirstAux, hb, Bool.false_eq_true, if_false]
    rw [ih (c :: seen) t (fun i hi => by
      have := hocc (i + 1) (by simp; omega)
      simpa using this)]
    simp

theorem jsReplaceFirst_first_occurrence {pat r : List Char} (hpat : pat ≠ [])
    (p t : List Char)
    (hocc : ∀ i, i < p.length → ¬ pat <+: (p.drop i ++ pat ++ t))
    (hr : '$' ∉ r) :
    jsReplaceFirst (p ++ pat ++ t) pat r = p ++ r ++ t := by
  unfold jsReplaceFirst
  rw [jsReplaceFirstAux_first_occurrence hpat p [] t hocc]
  simp [jsSubst_of_no_dollar hr]

/-! ### Claim C7 -/

/-- Counterexample for C7: every call site builds prompts with
`String.prototype.replace` and a *string* pattern, which replaces only the
first occurrence — a template with two `\x7b\x7bcontent\x7d\x7d` placeholders keeps
its second one verbatim, refuting "every occurrence of `\x7b\x7bcontent\x7d\x7d` is
replaced". -/
theorem generateNoteTitlePrompt_first_only :
    generateNoteTitlePrompt
        ("A ".data ++ patContent ++ " B ".data ++ patContent) "X".data none =
      "A X B ".data ++ patContent ∧
    "A X B ".data ++ patContent ≠ "A X B X".data := by
  refine ⟨by decide, by decide⟩

/-- C7 (amended): prompt-template rendering replaces the *first* occurrence
of each bound placeholder with its bound value; the value is inserted
verbatim provided it contains no `$` (the replacement string is subject to
JavaScript `GetSubstitution`); a template without an occurrence of a
placeholder is passed through unchanged, so unbound or absent placeholders
remain literal text. -/
theorem generateNoteTitlePrompt_renders :
    (∀ template content : List Char,
      ¬ patContent <:+: template → ¬ patCurrentTitle <:+: template →
      generateNoteTitlePrompt template content none = template) ∧
    (∀ p t content : List Char,
      (∀ i, i < p.length →
        ¬ patContent <+: (p.drop i ++ patContent ++ t)) →
      '$' ∉ content →
      ¬ patCurrentTitle <:+: (p ++ content ++ t) →
      generateNoteTitlePrompt (p ++ patContent ++ t) content none =
        p ++ content ++ t) := by
  constructor
  · intro template content h1 h2
    unfold generateNoteTitlePrompt
    rw [jsReplaceFirst_no_occurrence h1, jsReplaceFirst_no_occurrence h2]
  · intro p t content hocc hd h2
    unfold generateNoteTitlePrompt
    rw [jsReplaceFirst_first_occurrence (by decide) p t hocc hd,
      jsReplaceFirst_no_occurrence h2]

/-- Witness for the amended C7 at concrete inputs: a template without
placeholders is unchanged, and a single `\x7b\x7bcontent\x7d\x7d` is substituted
verbatim. -/
theorem generateNoteTitlePrompt_renders_witness :
    generateNoteTitlePrompt "no placeholders".data "X".data none =
      "no placeholders".data ∧
    generateNoteTitlePrompt ("A ".data ++ patContent ++ " B".data) "X".data
        none = "A ".data ++ "X".data ++ " B".data :=
  ⟨generateNoteTitlePrompt_renders.1 "no placeholders".data "X".data
      (by decide) (by decide),
    generateNoteTitlePrompt_renders.2 "A ".data " B".data "X".data
      (by decide) (by decide) (by decide)⟩

/-! ### Claim C8 -/

/-- Counterexample for C8: the guard `if (!response.text) return null`
tests JavaScript falsiness, so a *successful* generation call whose
response text is the empty string also yields null — refuting "returns
null if and only if the underlying generation call failed". -/
theorem extractCoreConcepts_null_on_empty_success :
    extractCoreConcepts exampleConceptsOf (some []) = none ∧
    (some [] : Option (List Char)) ≠ none := by
  refine ⟨rfl, by decide⟩

/-- C8 (amended): `extractCoreConcepts` returns null exactly when the
generation call failed or the successful response text is empty (the
source's falsy `!response.text` guard); on a successful non-empty
response, if the first-brace-to-last-brace span parses to a `concepts`
list the result is that list joined with `", "`, and on a missing span or
any parse failure the raw response text is returned unchanged — the
function is total, so no exception escapes. -/
theorem extractCoreConcepts_spec
    (conceptsOf : List Char → Option (List (List Char)))
    (response : Option (List Char)) :
    (extractCoreConcepts conceptsOf response = none ↔
      response = none ∨ response = some []) ∧
    (∀ text span cs, response = some text → text ≠ [] →
      jsonSpan text = some span → conceptsOf span = some cs →
      extractCoreConcepts conceptsOf response =
        some (List.intercalate ", ".data cs)) ∧
    (∀ text, response = some text → text ≠ [] → jsonSpan text = none →
      extractCoreConcepts conceptsOf response = some text) ∧
    (∀ text span, response = some text → text ≠ [] →
      jsonSpan text = some span → conceptsOf span = none →
      extractCoreConcepts conceptsOf response = some text) := by
  refine ⟨?_, ?_, ?_, ?_⟩
  · cases response with
    | none => simp [extractCoreConcepts]
    | some t =>
      by_cases ht : t = []
      · subst ht
        simp [extractCoreConcepts]
      · cases hj : jsonSpan t with
        | none => simp [extractCoreConcepts, ht, hj]
        | some sp =>
          cases hc : conceptsOf sp with
          | none => simp [extractCoreConcepts, ht, hj, hc]
          | some cs => simp [extractCoreConcepts, ht, hj, hc]
  · intro text span cs hresp ht hj hc
    subst hresp
    simp [extractCoreConcepts, ht, hj, hc]
  · intro text hresp ht hj
    subst hresp
    simp [extractCoreConcepts, ht, hj]
  · intro text span hresp ht hj hc
    subst hresp
    simp [extractCoreConcepts, ht, hj, hc]

/-- Witness for the amended C8: the spec's own examples, run through a
concrete parse oracle — a JSON response yields the joined concepts, a
plain-text response comes back unchanged, a failed generation yields
null. -/
theorem extractCoreConcepts_spec_witness :
    extractCoreConcepts exampleConceptsOf
        (some "\x7b\"concepts\": [\"a\",\"b\"]\x7d".data) = some "a, b".data ∧
    extractCoreConcepts exampleConceptsOf (some "just some text".data) =
      some "just some text".data ∧
    extractCoreConcepts exampleConceptsOf none = none :=
  ⟨((extractCoreConcepts_spec exampleConceptsOf
        (some "\x7b\"concepts\": [\"a\",\"b\"]\x7d".data)).2.1
      "\x7b\"concepts\": [\"a\",\"b\"]\x7d".data
      "\x7b\"concepts\": [\"a\",\"b\"]\x7d".data ["a".data, "b".data] rfl
      (by decide) (by decide) (by decide)).trans (by decide),
    (extractCoreConcepts_spec exampleConceptsOf
        (some "just some text".data)).2.2.1 "just some text".data rfl
      (by decide) (by decide),
    (extractCoreConcepts_spec exampleConceptsOf none).1.mpr (Or.inl rfl)⟩

/-! ### Lemmas about `sectionMatch` -/

theorem infix_of_findMatchIdx {pat : List Char} :
    ∀ {l : List Char} {i : ℕ}, findMatchIdx pat l = some i → pat <:+: l := by
  intro l
  induction l with
  | nil =>
    intro i h
    simp only [findMatchIdx] at h
    split at h
    · rename_i hp
      have : pat = [] := by
        cases pat with
        | nil => rfl
        | cons a as => simp at hp
      simp [this]
    · simp at h
  | cons c cs ih =>
    intro i h
    simp only [findMatchIdx] at h
    split at h
    · rename_i hp
      exact (List.isPrefixOf_iff_prefix.1 hp).isInfix
    · rcases Option.map_eq_some'.1 h with ⟨j, hj, _⟩
      exact List.infix_cons (ih hj)

theorem marker_infix_of_sectionMatch {content : List Char} {i : ℕ}
    {m1 : List Char} (h : sectionMatch content = some (i, m1)) :
    marker <:+: content := by
  unfold sectionMatch at h
  rcases Option.map_eq_some'.1 h with ⟨j, hj, _⟩
  exact (List.prefix_append marker "\n".data).isInfix.trans
    (infix_of_findMatchIdx hj)

theorem sectionMatch_group_subset {content : List Char} {i : ℕ}
    {m1 : List Char} (h : sectionMatch content = some (i, m1)) :
    ∀ x ∈ m1, x ∈ content := by
  unfold sectionMatch at h
  rcases Option.map_eq_some'.1 h with ⟨j, hj, heq⟩
  intro x hx
  have h1 : m1 = (content.drop (j + markerNl.length)).take
      (lazySectionLen (content.drop (j + markerNl.length))) := by
    have := congrArg Prod.snd heq
    simpa using this.symm
  rw [h1] at hx
  exact List.drop_subset _ _ (List.take_subset _ _ hx)

/-! ### Claim C9 -/

/-- Counterexample for C9: a body that contains the `## 관련 문서` marker
*not followed by a newline* (here, at the very end of the body) makes
`sectionRegex` fail to match, and `addWikiLink` silently changes nothing —
yet no link to the target is present, so neither claimed disjunct
(link already present / exactly one line appended) holds. -/
theorem addWikiLink_marker_no_newline_noop :
    addWikiLink "B".data "c".data "## 관련 문서".data = "## 관련 문서".data ∧
    ¬ ("[[B]]".data <:+: "## 관련 문서".data) := by
  refine ⟨by decide, by decide⟩

/-- C9 (amended): on the active body, `addWikiLink` behaves as follows.
With no marker, a fresh section with exactly one entry is appended. With a
marker followed by a newline (so `sectionRegex` matches, capturing `m1` at
index `i`): if the wikilink for the target already occurs in `m1` the body
is unchanged, otherwise — for text free of `$` characters, which JavaScript
`GetSubstitution` would rewrite — exactly one new line for the target is
inserted at the end of the matched section. If the marker occurs but is
never followed by a newline, the body is left unchanged. -/
theorem addWikiLink_spec :
    (∀ b ctx content : List Char, ¬ marker <:+: content →
      addWikiLink b ctx content =
        content ++ "\n\n".data ++ markerNl ++
          ("- ".data ++ ("[[".data ++ b ++ "]]".data) ++ " - ".data ++
            ctx)) ∧
    (∀ (b ctx content : List Char) (i : ℕ) (m1 : List Char),
      sectionMatch content = some (i, m1) →
      ("[[".data ++ b ++ "]]".data) <:+: m1 →
      addWikiLink b ctx content = content) ∧
    (∀ (b ctx content : List Char) (i : ℕ) (m1 : List Char),
      sectionMatch content = some (i, m1) →
      ¬ ("[[".data ++ b ++ "]]".data) <:+: m1 →
      '$' ∉ content → '$' ∉ b → '$' ∉ ctx →
      addWikiLink b ctx content =
        content.take i ++
          (markerNl ++ m1 ++ "\n".data ++
            ("- ".data ++ ("[[".data ++ b ++ "]]".data) ++ " - ".data ++
              ctx)) ++
          content.drop (i + (markerNl ++ m1).length)) ∧
    (∀ b ctx content : List Char, marker <:+: content →
      sectionMatch content = none → addWikiLink b ctx content = content) := by
  refine ⟨?_, ?_, ?_, ?_⟩
  · intro b ctx content hm
    simp only [addWikiLink]
    rw [if_neg hm]
  · intro b ctx content i m1 hs hw
    have hm := marker_infix_of_sectionMatch hs
    simp only [addWikiLink]
    rw [if_pos hm, hs]
    exact if_pos hw
  · intro b ctx content i m1 hs hw hdc hdb hdctx
    have hm := marker_infix_of_sectionMatch hs
    have hdm1 : '$' ∉ m1 := fun hx => hdc (sectionMatch_group_subset hs _ hx)
    have nm : ∀ {l1 l2 : List Char}, '$' ∉ l1 → '$' ∉ l2 → '$' ∉ l1 ++ l2 := by
      intro l1 l2 h1 h2 hx
      rcases List.mem_append.1 hx with h | h
      exacts [h1 h, h2 h]
    have hdu : '$' ∉ (markerNl ++ m1 ++ ['\n'] ++
        (['-', ' '] ++ (['[', '['] ++ b ++ [']', ']']) ++ [' ', '-', ' '] ++
          ctx)) :=
      nm (nm (nm (by decide) hdm1) (by decide))
        (nm (nm (nm (by decide) (nm (nm (by decide) hdb) (by decide)))
          (by decide)) hdctx)
    have hw2 : ¬ (['[', '['] ++ b ++ [']', ']']) <:+: m1 := hw
    have key : (if (['[', '['] ++ b ++ [']', ']']) <:+: m1 then content
        else List.take i content ++
          jsSubst (markerNl ++ m1) (List.take i content)
            (List.drop (i + (markerNl ++ m1).length) content) (some m1)
            (markerNl ++ m1 ++ ['\n'] ++
              (['-', ' '] ++ (['[', '['] ++ b ++ [']', ']']) ++
                [' ', '-', ' '] ++ ctx)) ++
          List.drop (i + (markerNl ++ m1).length) content) =
        List.take i content ++
          (markerNl ++ m1 ++ ['\n'] ++
            (['-', ' '] ++ (['[', '['] ++ b ++ [']', ']']) ++
              [' ', '-', ' '] ++ ctx)) ++
          List.drop (i + (markerNl ++ m1).length) content := by
      rw [if_neg hw2, jsSubst_of_no_dollar hdu]
    simp only [addWikiLink]
    rw [if_pos hm, hs]
    exact key
  · intro b ctx content hm hs
    simp only [addWikiLink]
    rw [if_pos hm, hs]

/-- Witness for the amended C9 on concrete bodies: fresh-section creation,
no-op on an existing link, single-line insertion, and the no-newline
corner. -/
theorem addWikiLink_spec_witness :
    addWikiLink "B".data "c".data "body".data =
      "body".data ++ "\n\n".data ++ markerNl ++
        ("- ".data ++ ("[[".data ++ "B".data ++ "]]".data) ++ " - ".data ++
          "c".data) ∧
    addWikiLink "B".data "c".data "x\n## 관련 문서\n- [[B]] - old".data =
      "x\n## 관련 문서\n- [[B]] - old".data ∧
    addWikiLink "B".data "c".data "x\n## 관련 문서\n- [[A]] - old".data =
      "x\n## 관련 문서\n- [[A]] - old\n- [[B]] - c".data ∧
    addWikiLink "B".data "c".data "y ## 관련 문서".data =
      "y ## 관련 문서".data :=
  ⟨addWikiLink_spec.1 "B".data "c".data "body".data (by decide),
    addWikiLink_spec.2.1 "B".data "c".data
      "x\n## 관련 문서\n- [[B]] - old".data 2 "- [[B]] - old".data
      (by decide) (by decide),
    (addWikiLink_spec.2.2.1 "B".data "c".data
      "x\n## 관련 문서\n- [[A]] - old".data 2 "- [[A]] - old".data
      (by decide) (by decide) (by decide) (by decide) (by decide)).trans
      (by decide),
    addWikiLink_spec.2.2.2 "B".data "c".data "y ## 관련 문서".data
      (by decide) (by decide)⟩

/-! ### Claim C10 -/

/-- C10: `sanitizeFilename` maps each character of the invalid class
`* " \ / < > : | ?` to an underscore and leaves every other character
unchanged, preserving length; consequently its output never contains a
filename-invalid character. -/
theorem sanitizeFilename_spec (s : List Char) :
    sanitizeFilename s =
      s.map (fun c => if invalidFilenameChar c then '_' else c) ∧
    (sanitizeFilename s).length = s.length ∧
    (sanitizeFilename s).all (fun c => !invalidFilenameChar c) = true := by
  have hmap : ∀ u : List Char, sanitizeFilename u =
      u.map (fun c => if invalidFilenameChar c then '_' else c) := by
    intro u
    induction u with
    | nil => rfl
    | cons c cs ih => simp [sanitizeFilename, ih]
  refine ⟨hmap s, by rw [hmap s]; simp, ?_⟩
  have hu : invalidFilenameChar '_' = false := by decide
  induction s with
  | nil => rfl
  | cons c cs ih =>
    by_cases hc : invalidFilenameChar c = true
    · simp [sanitizeFilename, hc, ih, hu]
    · have hcf : invalidFilenameChar c = false := by
        revert hc
        cases invalidFilenameChar c <;> simp
      simp [sanitizeFilename, hcf, ih]

end GeminiCopilot
